import Mathlib

/-!
ShiftB3 ETL pipeline — formal model and verification.

Shallow embedding of `src/etl/pipeline.js` (ETL pipeline of the ShiftB3
building-energy dashboard).

Modelling conventions:
* Raw record fields hold JSON-shaped JavaScript values (`JSVal`): the raw
  batch is produced by `JSON.parse(JSON.stringify(...))`, so the only
  possible field values are `null`, strings, numbers, booleans and
  objects/arrays; `undef` stands for an absent field (property access on a
  missing key yields `undefined`).
* JavaScript numbers are modelled as exact rationals (`ℚ`).  String→number
  conversion (`Number(...)` / `parseFloat(...)`) is modelled by a decimal
  numeral parser (optional sign, integer digits, optional fraction);
  exponent, hexadecimal and `Infinity` forms of JS numeric syntax are
  outside the model.  Number→string formatting (only used when a string
  field receives a numeric value) is abstracted by `toString` on `ℚ`; the
  claims only depend on such strings being non-empty.
* `String.toUpper` (ASCII case mapping) stands for
  `String.prototype.toUpperCase`; the two agree on all ASCII strings, and
  both leave the synonym-table lookup a miss for the non-ASCII strings that
  differ.
* A thrown JavaScript exception is modelled by `Except.error`.
-/

set_option maxRecDepth 8000

deriving instance DecidableEq for Except

/-- JSON-shaped JavaScript value (field of a raw record).  `undef` stands
for an absent field; `obj` abstracts any non-primitive value. -/
inductive JSVal where
  | null
  | undef
  | str (s : String)
  | num (q : ℚ)
  | bool (b : Bool)
  | obj
  deriving DecidableEq

/-- JavaScript truthiness of a `JSVal` (`NaN` is not representable in the
model; `-0` is identified with `0`, which has the same truthiness). -/
def JSVal.truthy : JSVal → Bool
  | .null => false
  | .undef => false
  | .str s => decide (s ≠ "")
  | .num q => decide (q ≠ 0)
  | .bool b => b
  | .obj => true

/-- Longest prefix of decimal digits, together with the rest. -/
def spanDigits : List Char → List Char × List Char
  | [] => ([], [])
  | c :: cs =>
    if c.isDigit then
      let p := spanDigits cs
      (c :: p.1, p.2)
    else ([], c :: cs)

/-- Value of a list of decimal digits. -/
def digitsVal (ds : List Char) : ℕ :=
  ds.foldl (fun n c => 10 * n + (c.toNat - 48)) 0

/-- Parse an unsigned decimal numeral `digits [. digits]` (at least one
digit overall), returning its value and the unconsumed rest. -/
def parseMantissa (cs : List Char) : Option (ℚ × List Char) :=
  let p := spanDigits cs
  match p.2 with
  | '.' :: cs2 =>
    let f := spanDigits cs2
    if p.1.isEmpty && f.1.isEmpty then none
    else some ((digitsVal p.1 : ℚ) + (digitsVal f.1 : ℚ) / (10 : ℚ) ^ f.1.length, f.2)
  | _ => if p.1.isEmpty then none else some ((digitsVal p.1 : ℚ), p.2)

/-- Parse an optionally signed decimal numeral. -/
def parseSigned (cs : List Char) : Option (ℚ × List Char) :=
  match cs with
  | c :: rest =>
    if c = '-' then (parseMantissa rest).map (fun p => (-p.1, p.2))
    else if c = '+' then parseMantissa rest
    else parseMantissa (c :: rest)
  | [] => none

/-- Model of `parseFloat` on a string: skip leading whitespace, parse the longest
numeral prefix, ignore the rest; `none` models `NaN`. -/
def jsParseFloatString (s : String) : Option ℚ :=
  (parseSigned (s.data.dropWhile Char.isWhitespace)).map Prod.fst

/-- Model of `Number(...)` on a string: trim; empty/whitespace-only is `0`; otherwise
the whole trimmed string must be a numeral; `none` models `NaN`. -/
def jsStringToNumber (s : String) : Option ℚ :=
  let t := s.trim
  if t = "" then some 0
  else
    match parseSigned t.data with
    | some (q, []) => some q
    | _ => none

/-- Model of `String(...)` conversion of a `JSVal` (number formatting abstracted by
`toString` on `ℚ`; the claims only depend on its non-emptiness). -/
def jsValToString (v : JSVal) : String :=
  match v with
  | .null => "null"
  | .undef => "undefined"
  | .str s => s
  | .num q => toString q
  | .bool b => if b then "true" else "false"
  | .obj => "[object Object]"

/-- Model of `Number(...)` coercion of a `JSVal`; `none` models `NaN` (plain objects
and arrays are abstracted to `NaN`). -/
def jsNumberOf (v : JSVal) : Option ℚ :=
  match v with
  | .null => some 0
  | .undef => none
  | .str s => jsStringToNumber s
  | .num q => some q
  | .bool b => some (if b then 1 else 0)
  | .obj => none

/-- Model of `parseFloat(...)` applied to a `JSVal` (the argument is coerced to a
string first; for a numeric argument this round-trips to the same value). -/
def jsParseFloatOf (v : JSVal) : Option ℚ :=
  match v with
  | .num q => some q
  | .str s => jsParseFloatString s
  | _ => none

/-- Model of `Math.round`: round half toward positive infinity. -/
def jsRound (q : ℚ) : ℤ := ⌊q + 1 / 2⌋

/-- A thrown JavaScript exception (`normalizeType` throws a `TypeError`
when calling `.toUpperCase()` on a truthy non-string). -/
inductive JsError where
  | typeError
  deriving DecidableEq

/-- Function `cleanString` from `pipeline.js`:
`null`/`undefined`/`''` give `''`; otherwise `String(value).trim()`. -/
def cleanString (v : JSVal) : String :=
  if v = .null ∨ v = .undef ∨ v = .str "" then ""
  else (jsValToString v).trim

/-- Function `toNumber` from `pipeline.js`: `null`/`undefined`/`''` give `0`;
`Number(value)` then `0` on `NaN`, else `Math.round`. -/
def toNumber (v : JSVal) : ℤ :=
  if v = .null ∨ v = .undef ∨ v = .str "" then 0
  else
    match jsNumberOf v with
    | none => 0
    | some q => jsRound q

/-- Function `toFloat` from `pipeline.js`: `null`/`undefined`/`''` give `0`;
`parseFloat(value)` then `0` on `NaN`, else the parsed value unchanged. -/
def toFloat (v : JSVal) : ℚ :=
  if v = .null ∨ v = .undef ∨ v = .str "" then 0
  else
    match jsParseFloatOf v with
    | none => 0
    | some q => q

/-- The fixed synonym table of `normalizeType` (uppercased source code →
canonical display label). -/
def typeMap : List (String × String) :=
  [("ECOLE", "École"), ("PISCINE", "Piscine"), ("MAIRIE", "Mairie"),
   ("BIBLIOTHEQUE", "Bibliothèque"), ("GYMNASE", "Gymnase"), ("CRECHE", "Crèche")]

/-- Function `normalizeType` from `pipeline.js`: falsy input gives `'Autre'`;
otherwise `map[type.toUpperCase()] || type` — which yields the *original*
value when the lookup misses, and throws a `TypeError` when the truthy
input is not a string. -/
def normalizeType (v : JSVal) : Except JsError String :=
  if v.truthy = false then .ok "Autre"
  else
    match v with
    | .str s => .ok ((typeMap.lookup s.toUpper).getD s)
    | _ => .error .typeError

/-- Function `getConsumptionLevel` from `pipeline.js`. -/
def getConsumptionLevel (totalEnergy surface : ℤ) : String :=
  if surface ≤ 0 then "medium"
  else
    if ((totalEnergy : ℚ) / (surface : ℚ)) < 30 then "low"
    else if ((totalEnergy : ℚ) / (surface : ℚ)) < 60 then "medium"
    else "high"

/-- JavaScript `n || 0` on an integer-valued number (used for
`occupants`); on `ℤ` this only renames `-0`/`0` to `0`. -/
def jsOrZero (n : ℤ) : ℤ := if n = 0 then 0 else n

/-- A raw record of the batch (`RAW_API_RESPONSE.resultats` entry); a
missing field is `undef`. -/
structure RawRecord where
  nom_batiment : JSVal := .undef
  type_infra : JSVal := .undef
  adresse_postale : JSVal := .undef
  conso_elec_kwh : JSVal := .undef
  conso_gaz_kwh : JSVal := .undef
  conso_eau_m3 : JSVal := .undef
  surface_m2 : JSVal := .undef
  annee : JSVal := .undef
  lat : JSVal := .undef
  lng : JSVal := .undef
  dpe_classe : JSVal := .undef
  nb_occupants : JSVal := .undef
  deriving DecidableEq

/-- Result of Transform's first sub-phase (field mapping/typing) on one
record. -/
structure BaseRecord where
  nom : String
  type : String
  adresse : String
  electricite_kwh : ℤ
  gaz_kwh : ℤ
  eau_m3 : ℤ
  surface_m2 : ℤ
  annee : ℤ
  latitude : ℚ
  longitude : ℚ
  classe_dpe : String
  occupants : ℤ
  deriving DecidableEq

/-- A canonical output record: the mapped fields plus the computed
fields added by Transform's third sub-phase. -/
structure CanonRecord extends BaseRecord where
  energie_totale_kwh : ℤ
  intensite_energetique : ℚ
  intensite_eau : ℚ
  niveau_conso : String
  deriving DecidableEq

/-- The field-mapping step of `transform` (first `.map`); propagates the
`TypeError` that `normalizeType` may throw. -/
def mapRecord (r : RawRecord) : Except JsError BaseRecord :=
  match normalizeType r.type_infra with
  | .error e => .error e
  | .ok ty => .ok {
      nom := cleanString r.nom_batiment
      type := ty
      adresse := cleanString r.adresse_postale
      electricite_kwh := toNumber r.conso_elec_kwh
      gaz_kwh := toNumber r.conso_gaz_kwh
      eau_m3 := toNumber r.conso_eau_m3
      surface_m2 := toNumber r.surface_m2
      annee := toNumber r.annee
      latitude := toFloat r.lat
      longitude := toFloat r.lng
      classe_dpe := cleanString r.dpe_classe
      occupants := jsOrZero (toNumber r.nb_occupants) }

/-- The map `rawData.map(record => ...)`: left-to-right, stopping at the first
thrown exception. -/
def mapRecords : List RawRecord → Except JsError (List BaseRecord)
  | [] => .ok []
  | r :: rest =>
    match mapRecord r with
    | .error e => .error e
    | .ok m =>
      match mapRecords rest with
      | .error e => .error e
      | .ok ms => .ok (m :: ms)

/-- The validity filter of `transform`:
`r.nom && r.latitude && r.longitude && r.electricite_kwh > 0`
(truthiness of a string is non-emptiness, of a number is being non-zero). -/
def validFilter (b : BaseRecord) : Bool :=
  decide (b.nom ≠ "") && decide (b.latitude ≠ 0) && decide (b.longitude ≠ 0) &&
    decide (0 < b.electricite_kwh)

/-- Transform's third sub-phase: spread the record and add the computed
fields, exactly as in the second `.map` of `transform`. -/
def addComputed (b : BaseRecord) : CanonRecord :=
  { toBaseRecord := b
    energie_totale_kwh := b.electricite_kwh + b.gaz_kwh
    intensite_energetique :=
      if 0 < b.surface_m2 then
        ((jsRound (((b.electricite_kwh + b.gaz_kwh : ℤ) : ℚ) / (b.surface_m2 : ℚ) * 10) : ℤ) : ℚ) / 10
      else 0
    intensite_eau :=
      if 0 < b.surface_m2 then
        ((jsRound ((b.eau_m3 : ℚ) / (b.surface_m2 : ℚ) * 100) : ℤ) : ℚ) / 100
      else 0
    niveau_conso := getConsumptionLevel (b.electricite_kwh + b.gaz_kwh) b.surface_m2 }

/-- Descending order on total energy: the total preorder induced by the
comparator `(a, b) => b.energie_totale_kwh - a.energie_totale_kwh`
(`a` sorts no later than `b` iff the comparator is `≤ 0`). -/
def energyGE (a b : CanonRecord) : Prop :=
  b.energie_totale_kwh ≤ a.energie_totale_kwh

instance : DecidableRel energyGE :=
  fun a b => inferInstanceAs (Decidable (b.energie_totale_kwh ≤ a.energie_totale_kwh))

instance : IsTotal CanonRecord energyGE :=
  ⟨fun a b => Int.le_total b.energie_totale_kwh a.energie_totale_kwh⟩

instance : IsTrans CanonRecord energyGE :=
  ⟨fun _ _ _ hab hbc => le_trans hbc hab⟩

/-- Model of `Array.prototype.sort` with the energy comparator.  ECMAScript
requires `sort` to be stable; a stable sort for a total preorder is
unique, so insertion sort denotes it exactly. -/
def sortByEnergy (l : List CanonRecord) : List CanonRecord :=
  l.insertionSort energyGE

/-- Function `transform` from `pipeline.js`: field mapping, validity filter,
computed fields, stable descending sort. -/
def transform (raw : List RawRecord) : Except JsError (List CanonRecord) :=
  match mapRecords raw with
  | .error e => .error e
  | .ok mapped => .ok (sortByEnergy ((mapped.filter validFilter).map addComputed))

/-- Function `load` from `pipeline.js`: returns the transformed batch unchanged
(the caller stores it into `processedData`). -/
def loadStage (t : List CanonRecord) : List CanonRecord := t

/-!
Orchestrator model.

`runETLPipeline` is an `async` function on the single-threaded JS event
loop.  Its body is cut into atomic segments by its three `await delay(...)`
suspension points; other invocations can only interleave at those points.
A configuration holds the module state (`processedData`, `isProcessing`),
the program counter of every invocation made so far, and the observable
events (progress-callback invocations, stage calls, the `etl:complete`
dispatch).  The data source `RAW_API_RESPONSE` (`src/data/rawData.js`) is
not part of the repository snapshot, so the outcome of `extract()` is a
parameter `ex` of the semantics; the spec gives Extract a failure mode
(`SourceUnavailable`), modelled by the `Except.error` case of `ex`. -/

/-- Observable events of a pipeline run. -/
inductive Event where
  | stepUpdate (stage phase : String)
  | extractCall
  | transformCall
  | loadCall
  | etlComplete (data : List CanonRecord)
  deriving DecidableEq

/-- Program counter of one `runETLPipeline` invocation.  The `awaiting*`
states are the three suspension points; `earlyReturned` is an invocation
that hit the single-flight guard and returned at once; `finished` and
`errored` are the terminal outcomes. -/
inductive RunPC where
  | earlyReturned (result : List CanonRecord)
  | awaitingExtract
  | awaitingTransform (raw : List RawRecord)
  | awaitingLoad (transformed : List CanonRecord)
  | finished (result : List CanonRecord)
  | errored (e : JsError)
  deriving DecidableEq

/-- An invocation is in progress iff it is suspended at one of the three
`await` points (past the guard, not yet returned). -/
def RunPC.isActive : RunPC → Bool
  | .awaitingExtract => true
  | .awaitingTransform _ => true
  | .awaitingLoad _ => true
  | _ => false

/-- Global configuration: module state of `pipeline.js`, the status of
every invocation, and the trace of observable events. -/
structure Config where
  processedData : List CanonRecord
  isProcessing : Bool
  runs : List RunPC
  events : List Event
  deriving DecidableEq

/-- Accessor `getData()`. -/
def getData (c : Config) : List CanonRecord := c.processedData

/-- Accessor `isETLProcessing()`. -/
def isETLProcessing (c : Config) : Bool := c.isProcessing

/-- Process start: empty published dataset, idle, no invocations. -/
def initConfig : Config :=
  { processedData := [], isProcessing := false, runs := [], events := [] }

/-- A new `runETLPipeline` invocation: the entry segment, executed
atomically up to the first `await`.  If the guard sees `isProcessing`,
the invocation returns the current `processedData` immediately with no
other effect; otherwise it sets the flag, notifies
`('extract', 'active')` and suspends. -/
def startRun (c : Config) : Config :=
  if c.isProcessing then
    { c with runs := c.runs ++ [.earlyReturned c.processedData] }
  else
    { c with
      isProcessing := true
      runs := c.runs ++ [.awaitingExtract]
      events := c.events ++ [.stepUpdate "extract" "active"] }

/-- Resume the `i`-th invocation at its suspension point (a no-op unless
that invocation is suspended).  On an exception from `extract()` or
`transform(...)` the `finally` block clears `isProcessing` and the error
propagates (the invocation ends `errored`); the published dataset is only
written in the Load segment. -/
def resumeRun (ex : Except JsError (List RawRecord)) (c : Config) (i : ℕ) : Config :=
  match c.runs.get? i with
  | some .awaitingExtract =>
    match ex with
    | .ok raw =>
      { c with
        runs := c.runs.set i (.awaitingTransform raw)
        events := c.events ++
          [.extractCall, .stepUpdate "extract" "done", .stepUpdate "transform" "active"] }
    | .error e =>
      { c with
        isProcessing := false
        runs := c.runs.set i (.errored e)
        events := c.events ++ [.extractCall] }
  | some (.awaitingTransform raw) =>
    match transform raw with
    | .ok t =>
      { c with
        runs := c.runs.set i (.awaitingLoad t)
        events := c.events ++
          [.transformCall, .stepUpdate "transform" "done", .stepUpdate "load" "active"] }
    | .error e =>
      { c with
        isProcessing := false
        runs := c.runs.set i (.errored e)
        events := c.events ++ [.transformCall] }
  | some (.awaitingLoad t) =>
    { c with
      processedData := loadStage t
      isProcessing := false
      runs := c.runs.set i (.finished (loadStage t))
      events := c.events ++
        [.loadCall, .stepUpdate "load" "done", .etlComplete (loadStage t)] }
  | _ => c

/-- One scheduler step: either a fresh invocation of `runETLPipeline`, or
resuming a suspended one. -/
inductive Step (ex : Except JsError (List RawRecord)) : Config → Config → Prop where
  | start (c : Config) : Step ex c (startRun c)
  | resume (c : Config) (i : ℕ) : Step ex c (resumeRun ex c i)

/-- Configurations reachable from process start. -/
inductive Reaches (ex : Except JsError (List RawRecord)) : Config → Prop where
  | init : Reaches ex initConfig
  | step {c c' : Config} : Reaches ex c → Step ex c c' → Reaches ex c'

/-- Number of invocations currently in progress. -/
def activeRuns (c : Config) : ℕ := c.runs.countP RunPC.isActive

/-- Raw values whose numeric coercion is either `NaN` or a non-negative
number. -/
def numNonneg (v : JSVal) : Bool :=
  match jsNumberOf v with
  | none => true
  | some q => decide (0 ≤ q)

/-- Raw category values on which `normalizeType` cannot throw: strings
and falsy values. -/
def typeInfraSafe (v : JSVal) : Bool :=
  match v with
  | .str _ => true
  | v => !v.truthy

/-! ## Support lemmas -/

theorem mapRecords_forward {raw : List RawRecord} {mapped : List BaseRecord}
    (h : mapRecords raw = .ok mapped) :
    ∀ r ∈ raw, ∀ m, mapRecord r = .ok m → m ∈ mapped := by
  induction raw generalizing mapped with
  | nil => intro r hr; exact absurd hr (List.not_mem_nil r)
  | cons a rest ih =>
    intro r hr m hm
    cases ha : mapRecord a with
    | error e => simp [mapRecords, ha] at h
    | ok ma =>
      cases hrest : mapRecords rest with
      | error e => simp [mapRecords, ha, hrest] at h
      | ok ms =>
        simp [mapRecords, ha, hrest] at h
        rcases List.mem_cons.mp hr with rfl | hr2
        · rw [ha] at hm
          injection hm with hm
          subst h; subst hm; exact List.mem_cons_self _ _
        · subst h; exact List.mem_cons_of_mem _ (ih hrest r hr2 m hm)

theorem mapRecords_backward {raw : List RawRecord} {mapped : List BaseRecord}
    (h : mapRecords raw = .ok mapped) :
    ∀ m ∈ mapped, ∃ r ∈ raw, mapRecord r = .ok m := by
  induction raw generalizing mapped with
  | nil =>
    simp [mapRecords] at h
    subst h
    intro m hm
    exact absurd hm (List.not_mem_nil m)
  | cons a rest ih =>
    intro m hm
    cases ha : mapRecord a with
    | error e => simp [mapRecords, ha] at h
    | ok ma =>
      cases hrest : mapRecords rest with
      | error e => simp [mapRecords, ha, hrest] at h
      | ok ms =>
        simp [mapRecords, ha, hrest] at h
        subst h
        rcases List.mem_cons.mp hm with rfl | hm2
        · exact ⟨a, List.mem_cons_self _ _, ha⟩
        · obtain ⟨r, hr, hmr⟩ := ih hrest m hm2
          exact ⟨r, List.mem_cons_of_mem _ hr, hmr⟩

theorem transform_ok_elim {raw : List RawRecord} {out : List CanonRecord}
    (h : transform raw = .ok out) :
    ∃ mapped, mapRecords raw = .ok mapped ∧
      out = sortByEnergy ((mapped.filter validFilter).map addComputed) := by
  cases hm : mapRecords raw with
  | error e => simp [transform, hm] at h
  | ok mapped =>
    simp [transform, hm] at h
    exact ⟨mapped, rfl, h.symm⟩

theorem mem_sortByEnergy {l : List CanonRecord} {x : CanonRecord} :
    x ∈ sortByEnergy l ↔ x ∈ l :=
  List.mem_insertionSort energyGE

theorem addComputed_base (b : BaseRecord) : (addComputed b).toBaseRecord = b := rfl

theorem validFilter_iff (b : BaseRecord) :
    validFilter b = true ↔
      (b.nom ≠ "" ∧ b.latitude ≠ 0 ∧ b.longitude ≠ 0 ∧ 0 < b.electricite_kwh) := by
  simp [validFilter, Bool.and_eq_true, decide_eq_true_eq, and_assoc]

theorem mem_transform_ok {raw : List RawRecord} {out : List CanonRecord}
    {rec : CanonRecord} (h : transform raw = .ok out) (hr : rec ∈ out) :
    ∃ b, validFilter b = true ∧ rec = addComputed b := by
  obtain ⟨mapped, _, hout⟩ := transform_ok_elim h
  subst hout
  obtain ⟨b, hb, hbeq⟩ := List.mem_map.mp (mem_sortByEnergy.mp hr)
  exact ⟨b, (List.mem_filter.mp hb).2, hbeq.symm⟩

theorem jsRound_nonneg {q : ℚ} (h : 0 ≤ q) : 0 ≤ jsRound q := by
  unfold jsRound
  rw [Int.le_floor]
  push_cast
  linarith

theorem toNumber_nonneg {v : JSVal} (h : numNonneg v = true) : 0 ≤ toNumber v := by
  unfold numNonneg at h
  unfold toNumber
  split
  · exact le_refl 0
  · cases hj : jsNumberOf v with
    | none => exact le_refl 0
    | some q =>
      rw [hj] at h
      simp only [decide_eq_true_eq] at h
      exact jsRound_nonneg h

theorem jsOrZero_nonneg {n : ℤ} (h : 0 ≤ n) : 0 ≤ jsOrZero n := by
  unfold jsOrZero
  split <;> omega

/-- Inserting a record leaves the subsequence of any fixed total
unchanged apart from prepending the record when it has that total
(elements skipped on the way in have strictly larger totals). -/
theorem filter_orderedInsert_energy (t : ℤ) (a : CanonRecord) (l : List CanonRecord) :
    (l.orderedInsert energyGE a).filter (fun c => decide (c.energie_totale_kwh = t)) =
      if a.energie_totale_kwh = t then
        a :: l.filter (fun c => decide (c.energie_totale_kwh = t))
      else l.filter (fun c => decide (c.energie_totale_kwh = t)) := by
  induction l with
  | nil => simp [List.orderedInsert, List.filter_cons]
  | cons b l ih =>
    rw [List.orderedInsert]
    by_cases hab : energyGE a b
    · rw [if_pos hab]
      simp only [List.filter_cons]
      by_cases hat : a.energie_totale_kwh = t <;>
        by_cases hbt : b.energie_totale_kwh = t <;> simp [hat, hbt]
    · rw [if_neg hab]
      unfold energyGE at hab
      push_neg at hab
      by_cases hat : a.energie_totale_kwh = t
      · have hbt : b.energie_totale_kwh ≠ t := by omega
        simp only [List.filter_cons, ih]
        simp [hat, hbt]
      · simp only [List.filter_cons, ih]
        by_cases hbt : b.energie_totale_kwh = t <;> simp [hat, hbt]

/-- Stability of the sort: for every total `t`, the subsequence of
records with that total is exactly the pre-sort subsequence. -/
theorem filter_sortByEnergy (t : ℤ) (l : List CanonRecord) :
    (sortByEnergy l).filter (fun c => decide (c.energie_totale_kwh = t)) =
      l.filter (fun c => decide (c.energie_totale_kwh = t)) := by
  unfold sortByEnergy
  induction l with
  | nil => rfl
  | cons a l ih =>
    rw [List.insertionSort, filter_orderedInsert_energy, List.filter_cons]
    by_cases hat : a.energie_totale_kwh = t <;> simp [hat, ih]

theorem sorted_sortByEnergy (l : List CanonRecord) :
    List.Sorted energyGE (sortByEnergy l) :=
  List.sorted_insertionSort energyGE l

/-- Replacing a list element changes `countP` exactly by the two
indicator differences. -/
theorem countP_set_run {l : List RunPC} {i : ℕ} {x : RunPC}
    (h : l.get? i = some x) (y : RunPC) (p : RunPC → Bool) :
    (l.set i y).countP p + (if p x then 1 else 0) =
      l.countP p + (if p y then 1 else 0) := by
  induction l generalizing i with
  | nil => simp at h
  | cons a l ih =>
    cases i with
    | zero =>
      simp only [List.get?] at h
      injection h with h
      subst h
      simp only [List.set, List.countP_cons]
      split <;> split <;> omega
    | succ n =>
      simp only [List.get?] at h
      have := ih h
      simp only [List.set, List.countP_cons]
      omega

/-- The single-flight invariant: the guard flag counts the invocations in
progress — exactly one while `Running`, none while `Idle`. -/
def GuardInv (c : Config) : Prop :=
  (c.isProcessing = true → activeRuns c = 1) ∧
    (c.isProcessing = false → activeRuns c = 0)

theorem guardInv_start {c : Config} (h : GuardInv c) : GuardInv (startRun c) := by
  unfold GuardInv activeRuns at *
  unfold startRun
  have h0 : List.countP RunPC.isActive [RunPC.earlyReturned c.processedData] = 0 := rfl
  have h1 : List.countP RunPC.isActive [RunPC.awaitingExtract] = 1 := rfl
  by_cases hp : c.isProcessing = true
  · rw [if_pos hp]
    refine ⟨fun _ => ?_, fun hf => ?_⟩
    · rw [List.countP_append, h0, h.1 hp]
    · rw [hp] at hf
      exact Bool.noConfusion hf
  · rw [if_neg hp]
    simp only [Bool.not_eq_true] at hp
    refine ⟨fun _ => ?_, fun hf => ?_⟩
    · rw [List.countP_append, h1, h.2 hp]
    · exact Bool.noConfusion hf

/-- While some invocation is suspended, the flag is set, and replacing
that invocation's program counter leaves exactly the indicator of the new
counter as the active count. -/
theorem resume_count {c : Config} {i : ℕ} {x : RunPC}
    (h : GuardInv c) (hx : c.runs.get? i = some x) (hact : RunPC.isActive x = true)
    (y : RunPC) :
    c.isProcessing = true ∧
      (c.runs.set i y).countP RunPC.isActive =
        (if RunPC.isActive y = true then 1 else 0) := by
  unfold GuardInv activeRuns at h
  have hpos : 0 < c.runs.countP RunPC.isActive :=
    List.countP_pos_iff.mpr ⟨x, List.get?_mem hx, hact⟩
  have hproc : c.isProcessing = true := by
    by_contra hfalse
    simp only [Bool.not_eq_true] at hfalse
    have h2 := h.2 hfalse
    omega
  have h1 := h.1 hproc
  have hcnt := countP_set_run hx y RunPC.isActive
  rw [hact] at hcnt
  refine ⟨hproc, ?_⟩
  by_cases hy : RunPC.isActive y = true
  · rw [if_pos hy]
    simp [hy] at hcnt
    omega
  · rw [if_neg hy]
    simp only [Bool.not_eq_true] at hy
    simp [hy] at hcnt
    omega

theorem guardInv_resume (ex : Except JsError (List RawRecord)) {c : Config} (i : ℕ)
    (h : GuardInv c) : GuardInv (resumeRun ex c i) := by
  rcases hget : c.runs.get? i with _ | pc
  · unfold resumeRun
    rw [hget]
    exact h
  · cases pc with
    | earlyReturned r =>
      unfold resumeRun
      rw [hget]
      exact h
    | finished r =>
      unfold resumeRun
      rw [hget]
      exact h
    | errored e =>
      unfold resumeRun
      rw [hget]
      exact h
    | awaitingExtract =>
      unfold resumeRun
      rw [hget]
      cases ex with
      | ok raw =>
        obtain ⟨hproc, hcnt⟩ := resume_count h hget rfl (.awaitingTransform raw)
        simp only [RunPC.isActive] at hcnt
        unfold GuardInv activeRuns
        simp only []
        refine ⟨fun _ => ?_, fun hf => ?_⟩
        · simpa using hcnt
        · rw [hproc] at hf
          exact Bool.noConfusion hf
      | error e =>
        obtain ⟨hproc, hcnt⟩ := resume_count h hget rfl (.errored e)
        simp only [RunPC.isActive] at hcnt
        unfold GuardInv activeRuns
        simp only []
        refine ⟨fun hf => Bool.noConfusion hf, fun _ => ?_⟩
        simpa using hcnt
    | awaitingTransform raw =>
      unfold resumeRun
      rw [hget]
      cases ht : transform raw with
      | ok t =>
        obtain ⟨hproc, hcnt⟩ := resume_count h hget rfl (.awaitingLoad t)
        simp only [RunPC.isActive] at hcnt
        unfold GuardInv activeRuns
        simp only [ht]
        refine ⟨fun _ => ?_, fun hf => ?_⟩
        · simpa using hcnt
        · rw [hproc] at hf
          exact Bool.noConfusion hf
      | error e =>
        obtain ⟨hproc, hcnt⟩ := resume_count h hget rfl (.errored e)
        simp only [RunPC.isActive] at hcnt
        unfold GuardInv activeRuns
        simp only [ht]
        refine ⟨fun hf => Bool.noConfusion hf, fun _ => ?_⟩
        simpa using hcnt
    | awaitingLoad t =>
      unfold resumeRun
      rw [hget]
      obtain ⟨hproc, hcnt⟩ := resume_count h hget rfl (.finished (loadStage t))
      simp only [RunPC.isActive] at hcnt
      unfold GuardInv activeRuns
      simp only []
      refine ⟨fun hf => Bool.noConfusion hf, fun _ => ?_⟩
      simpa using hcnt

theorem guardInv_reaches {ex : Except JsError (List RawRecord)} {c : Config}
    (h : Reaches ex c) : GuardInv c := by
  induction h with
  | init => simp [GuardInv, initConfig, activeRuns]
  | step _ hs ih =>
    cases hs with
    | start => exact guardInv_start ih
    | resume i => exact guardInv_resume _ i ih

/-! ## Witness fixtures -/

/-- A well-formed raw record (passes the validity filter). -/
def wrec1 : RawRecord :=
  { nom_batiment := .str "A", type_infra := .str "ECOLE",
    conso_elec_kwh := .num 10, conso_gaz_kwh := .num 5,
    conso_eau_m3 := .num 2, surface_m2 := .num 5,
    annee := .num 2000, lat := .num 1, lng := .num 2,
    dpe_classe := .str "C", nb_occupants := .num 3 }

/-- A second raw record with the same total energy (10 + 5 = 12 + 3) and
zero floor area, exercising the tie-break and the division guard. -/
def wrec2 : RawRecord :=
  { nom_batiment := .str "B", type_infra := .str "GYMNASE",
    conso_elec_kwh := .num 12, conso_gaz_kwh := .num 3,
    conso_eau_m3 := .num 1, surface_m2 := .num 0,
    annee := .num 1999, lat := .num 3, lng := .num 4,
    dpe_classe := .str "B", nb_occupants := .undef }

/-- A raw record whose truthy non-string category makes `normalizeType`
throw. -/
def badRec : RawRecord := { type_infra := JSVal.num 5 }

def wraw1 : List RawRecord := [wrec1]

def wraw2 : List RawRecord := [wrec1, wrec2]

/-- The mapping of `wrec1`. -/
def wbase1 : BaseRecord :=
  { nom := "A", type := "École", adresse := "", electricite_kwh := 10, gaz_kwh := 5,
    eau_m3 := 2, surface_m2 := 5, annee := 2000, latitude := 1, longitude := 2,
    classe_dpe := "C", occupants := 3 }

def wcan1 : CanonRecord := addComputed wbase1

def wout1 : List CanonRecord := (transform wraw1).toOption.getD []

def wout2 : List CanonRecord := (transform wraw2).toOption.getD []

def wmapped2 : List BaseRecord := (mapRecords wraw2).toOption.getD []

/-- The orchestrator state right after one pipeline start. -/
def busyCfg : Config := startRun initConfig

/-! ## Claims -/

/-- C1: for every raw record in the input batch, a record appears in the
Transform output iff, after field mapping, its name is non-empty, its
latitude and longitude are non-zero (a mapped coordinate is never
null/undefined — missing or invalid raw values map to `0`), and its
electricity is strictly greater than `0`; no other mapped field is
constrained by the filter. -/
theorem C1_filter_correctness {raw : List RawRecord} {out : List CanonRecord}
    (hok : transform raw = .ok out) {r : RawRecord} (hr : r ∈ raw)
    {m : BaseRecord} (hm : mapRecord r = .ok m) :
    (∃ rec ∈ out, rec.toBaseRecord = m) ↔
      (m.nom ≠ "" ∧ m.latitude ≠ 0 ∧ m.longitude ≠ 0 ∧ 0 < m.electricite_kwh) := by
  obtain ⟨mapped, hmap, hout⟩ := transform_ok_elim hok
  subst hout
  constructor
  · rintro ⟨rec, hrec, hbase⟩
    obtain ⟨b, hbf, hbeq⟩ := List.mem_map.mp (mem_sortByEnergy.mp hrec)
    have hb : b = m := by
      have hc := congrArg CanonRecord.toBaseRecord hbeq
      rw [addComputed_base] at hc
      rw [hc, hbase]
    rw [hb] at hbf
    exact (validFilter_iff m).mp (List.mem_filter.mp hbf).2
  · intro hcond
    have hmem : m ∈ mapped := mapRecords_forward hmap r hr m hm
    refine ⟨addComputed m, ?_, addComputed_base m⟩
    exact mem_sortByEnergy.mpr
      (List.mem_map.mpr ⟨m, List.mem_filter.mpr ⟨hmem, (validFilter_iff m).mpr hcond⟩, rfl⟩)

/-- Witness for C1 at `wrec1`. -/
theorem C1_witness : ∃ rec ∈ wout1, rec.toBaseRecord = wbase1 :=
  (C1_filter_correctness (by with_unfolding_all decide)
      (List.mem_singleton.mpr rfl)
      (show mapRecord wrec1 = .ok wbase1 by with_unfolding_all decide)).mpr
    (by with_unfolding_all decide)

/-- C2: every surviving record satisfies exactly
`total_energy_kwh = electricity_kwh + gas_kwh`,
`energy_intensity = round(total/area*10)/10` when `area > 0` else `0`, and
`water_intensity = round(water/area*100)/100` when `area > 0` else `0`
(in the rational model no `NaN`/`Infinity` can arise; the guard returns
`0` for non-positive areas). -/
theorem C2_derived_fields {raw : List RawRecord} {out : List CanonRecord}
    (hok : transform raw = .ok out) {rec : CanonRecord} (hrec : rec ∈ out) :
    rec.energie_totale_kwh = rec.electricite_kwh + rec.gaz_kwh ∧
    rec.intensite_energetique =
      (if 0 < rec.surface_m2 then
        ((jsRound ((rec.energie_totale_kwh : ℚ) / (rec.surface_m2 : ℚ) * 10) : ℤ) : ℚ) / 10
      else 0) ∧
    rec.intensite_eau =
      (if 0 < rec.surface_m2 then
        ((jsRound ((rec.eau_m3 : ℚ) / (rec.surface_m2 : ℚ) * 100) : ℤ) : ℚ) / 100
      else 0) := by
  obtain ⟨b, hv, hbeq⟩ := mem_transform_ok hok hrec
  subst hbeq
  exact ⟨rfl, rfl, rfl⟩

/-- Witness for C2 at the single output record of `wraw1`. -/
theorem C2_witness :
    wcan1.energie_totale_kwh = wcan1.electricite_kwh + wcan1.gaz_kwh ∧
    wcan1.intensite_energetique =
      (if 0 < wcan1.surface_m2 then
        ((jsRound ((wcan1.energie_totale_kwh : ℚ) / (wcan1.surface_m2 : ℚ) * 10) : ℤ) : ℚ) / 10
      else 0) ∧
    wcan1.intensite_eau =
      (if 0 < wcan1.surface_m2 then
        ((jsRound ((wcan1.eau_m3 : ℚ) / (wcan1.surface_m2 : ℚ) * 100) : ℤ) : ℚ) / 100
      else 0) :=
  C2_derived_fields (show transform wraw1 = .ok wout1 by with_unfolding_all decide)
    (show wcan1 ∈ wout1 by with_unfolding_all decide)

/-- C3: `consumption_level` is computed from the unrounded intensity
`total_energy_kwh / floor_area_m2` (never from the rounded
`energy_intensity` field): `"medium"` when the area is `≤ 0`, `"low"`
below `30`, `"medium"` from `30` (inclusive) below `60`, `"high"` from
`60` (inclusive); in particular intensity exactly `30` is `"medium"` and
exactly `60` is `"high"`. -/
theorem C3_consumption_level {raw : List RawRecord} {out : List CanonRecord}
    (hok : transform raw = .ok out) {rec : CanonRecord} (hrec : rec ∈ out) :
    (rec.niveau_conso =
      if rec.surface_m2 ≤ 0 then "medium"
      else if ((rec.energie_totale_kwh : ℚ) / (rec.surface_m2 : ℚ)) < 30 then "low"
      else if ((rec.energie_totale_kwh : ℚ) / (rec.surface_m2 : ℚ)) < 60 then "medium"
      else "high") ∧
    getConsumptionLevel 30 1 = "medium" ∧ getConsumptionLevel 60 1 = "high" := by
  obtain ⟨b, hv, hbeq⟩ := mem_transform_ok hok hrec
  subst hbeq
  refine ⟨rfl, ?_, ?_⟩
  · unfold getConsumptionLevel
    norm_num
  · unfold getConsumptionLevel
    norm_num

/-- Witness for C3 at the single output record of `wraw1`. -/
theorem C3_witness :
    (wcan1.niveau_conso =
      if wcan1.surface_m2 ≤ 0 then "medium"
      else if ((wcan1.energie_totale_kwh : ℚ) / (wcan1.surface_m2 : ℚ)) < 30 then "low"
      else if ((wcan1.energie_totale_kwh : ℚ) / (wcan1.surface_m2 : ℚ)) < 60 then "medium"
      else "high") ∧
    getConsumptionLevel 30 1 = "medium" ∧ getConsumptionLevel 60 1 = "high" :=
  C3_consumption_level (show transform wraw1 = .ok wout1 by with_unfolding_all decide)
    (show wcan1 ∈ wout1 by with_unfolding_all decide)

/-- C4 counterexample: the raw category `"STADE"` is non-missing and not in
the synonym table, yet the mapped category field is the original string
`"STADE"`, not the claimed fallback `"Autre"`
(`map[type.toUpperCase()] || type` falls back to `type`, not `'Autre'`). -/
theorem C4_cex :
    Except.map BaseRecord.type (mapRecord { type_infra := JSVal.str "STADE" }) =
      .ok "STADE" ∧ "STADE" ≠ "Autre" := by
  constructor
  · with_unfolding_all decide
  · decide

/-- C4 amended: a recognized code (after uppercasing) maps to its canonical
label; a missing/empty (falsy) category maps to `"Autre"`; an unrecognized
non-empty string maps to itself, unchanged. -/
theorem C4_amended :
    (∀ s : String, s ≠ "" →
      normalizeType (JSVal.str s) = .ok ((typeMap.lookup s.toUpper).getD s)) ∧
    normalizeType JSVal.null = .ok "Autre" ∧
    normalizeType JSVal.undef = .ok "Autre" ∧
    normalizeType (JSVal.str "") = .ok "Autre" := by
  refine ⟨fun s hs => ?_, rfl, rfl, rfl⟩
  unfold normalizeType
  have ht : (JSVal.str s).truthy = true := by simp [JSVal.truthy, hs]
  rw [ht]
  simp

/-- Witness for C4 at the recognized code `"ecole"` (lower case, hits the
table after uppercasing) and at a missing category. -/
theorem C4_witness :
    normalizeType (JSVal.str "ecole") = .ok ((typeMap.lookup "ecole".toUpper).getD "ecole") ∧
    normalizeType JSVal.null = .ok "Autre" :=
  ⟨C4_amended.1 "ecole" (by decide), C4_amended.2.1⟩

/-- C5 counterexample: a record whose category field holds the number `5`
(a truthy non-string) makes Transform throw a `TypeError` from
`type.toUpperCase()` instead of degrading to a default. -/
theorem C5_cex : transform [badRec] = .error JsError.typeError := by
  with_unfolding_all decide

/-- Function `normalizeType` succeeds on every string and every falsy value. -/
theorem normalizeType_ok_of_safe {v : JSVal} (h : typeInfraSafe v = true) :
    ∃ s, normalizeType v = .ok s := by
  unfold typeInfraSafe at h
  unfold normalizeType
  cases v with
  | str s =>
    by_cases ht : JSVal.truthy (.str s) = false
    · exact ⟨"Autre", by rw [if_pos ht]⟩
    · rw [if_neg ht]
      exact ⟨_, rfl⟩
  | null => exact ⟨"Autre", rfl⟩
  | undef => exact ⟨"Autre", rfl⟩
  | num q =>
    simp only [Bool.not_eq_true'] at h
    exact ⟨"Autre", by rw [if_pos h]⟩
  | bool b =>
    simp only [Bool.not_eq_true'] at h
    exact ⟨"Autre", by rw [if_pos h]⟩
  | obj => simp [JSVal.truthy] at h

/-- C5 amended: Transform terminates and returns a sequence for every
batch in which each record's raw category field is a string or a falsy
value; but a truthy non-string category (e.g. a non-zero number) makes it
throw.  All other fields may hold arbitrary values and degrade to
defaults. -/
theorem C5_amended {raw : List RawRecord}
    (h : ∀ r ∈ raw, typeInfraSafe r.type_infra = true) :
    ∃ out, transform raw = .ok out := by
  suffices hs : ∃ mapped, mapRecords raw = .ok mapped by
    obtain ⟨mapped, hm⟩ := hs
    exact ⟨sortByEnergy ((mapped.filter validFilter).map addComputed),
      by simp [transform, hm]⟩
  induction raw with
  | nil => exact ⟨[], rfl⟩
  | cons a rest ih =>
    have ha : ∃ m, mapRecord a = .ok m := by
      obtain ⟨ty, hty⟩ := normalizeType_ok_of_safe (h a (List.mem_cons_self _ _))
      exact ⟨_, by unfold mapRecord; rw [hty]⟩
    obtain ⟨m, hm⟩ := ha
    obtain ⟨ms, hms⟩ := ih (fun r hr => h r (List.mem_cons_of_mem _ hr))
    exact ⟨m :: ms, by simp [mapRecords, hm, hms]⟩

/-- Witness for C5 (amended) on a batch with string and missing
categories. -/
theorem C5_witness : ∃ out, transform wraw2 = .ok out :=
  C5_amended (by with_unfolding_all decide)

/-- C6: the Transform output is sorted non-increasingly by
`total_energy_kwh`, and for every total the subsequence of records with
that total equals the pre-sort subsequence (the sort is stable, so tie
order is deterministic: pre-sort relative order is preserved). -/
theorem C6_sort_stable {raw : List RawRecord} {out : List CanonRecord}
    (hok : transform raw = .ok out) :
    List.Sorted energyGE out ∧
      ∀ mapped, mapRecords raw = .ok mapped →
        ∀ t : ℤ,
          out.filter (fun c => decide (c.energie_totale_kwh = t)) =
            ((mapped.filter validFilter).map addComputed).filter
              (fun c => decide (c.energie_totale_kwh = t)) := by
  obtain ⟨mapped, hmap, hout⟩ := transform_ok_elim hok
  subst hout
  refine ⟨sorted_sortByEnergy _, ?_⟩
  intro mapped2 hmap2 t
  rw [hmap] at hmap2
  injection hmap2 with hmap2
  subst hmap2
  exact filter_sortByEnergy t _

/-- Witness for C6 on a two-record batch with equal totals. -/
theorem C6_witness :
    List.Sorted energyGE wout2 ∧
      wout2.filter (fun c => decide (c.energie_totale_kwh = 15)) =
        ((wmapped2.filter validFilter).map addComputed).filter
          (fun c => decide (c.energie_totale_kwh = 15)) := by
  have h := C6_sort_stable (show transform wraw2 = .ok wout2 by with_unfolding_all decide)
  exact ⟨h.1, h.2 wmapped2 (by with_unfolding_all decide) 15⟩

/-- C7: single-flight.  First conjunct: a start issued while a run is in
progress changes nothing — `processedData`, `isProcessing` and the event
trace (progress notifications and stage calls) are untouched, so the run
in progress publishes exactly what it would have published, and the new
invocation is already terminated carrying the currently published
(possibly stale) dataset `getData c`.  Second conjunct: in every
reachable configuration at most one invocation is in progress. -/
theorem C7_single_flight (ex : Except JsError (List RawRecord)) :
    (∀ c : Config, isETLProcessing c = true →
      startRun c = { c with runs := c.runs ++ [RunPC.earlyReturned (getData c)] }) ∧
    (∀ c : Config, Reaches ex c → activeRuns c ≤ 1) := by
  constructor
  · intro c hp
    have hp2 : c.isProcessing = true := hp
    unfold startRun
    rw [if_pos hp2]
    rfl
  · intro c hreach
    have h := guardInv_reaches hreach
    unfold GuardInv at h
    cases hp : c.isProcessing
    · have h2 := h.2 hp
      omega
    · have h1 := h.1 hp
      omega

/-- Witness for C7 in the configuration reached by one start. -/
theorem C7_witness :
    (startRun busyCfg =
      { busyCfg with runs := busyCfg.runs ++ [RunPC.earlyReturned (getData busyCfg)] }) ∧
    activeRuns busyCfg ≤ 1 := by
  have h := C7_single_flight (Except.ok [])
  exact ⟨h.1 busyCfg rfl, h.2 busyCfg (Reaches.step Reaches.init (Step.start initConfig))⟩

/-- Resuming one invocation does not move any other invocation's program
counter. -/
theorem resumeRun_get_ne (ex : Except JsError (List RawRecord)) (c : Config)
    {i j : ℕ} (hij : j ≠ i) :
    (resumeRun ex c j).runs.get? i = c.runs.get? i := by
  unfold resumeRun
  rcases hgj : c.runs.get? j with _ | pc
  · rfl
  · cases pc with
    | earlyReturned r => rfl
    | finished r => rfl
    | errored e => rfl
    | awaitingExtract =>
      cases ex with
      | ok raw => exact List.get?_set_ne _ _ hij
      | error e => exact List.get?_set_ne _ _ hij
    | awaitingTransform raw =>
      cases ht : transform raw with
      | ok t =>
        simp only [ht]
        exact List.get?_set_ne _ _ hij
      | error e =>
        simp only [ht]
        exact List.get?_set_ne _ _ hij
    | awaitingLoad t => exact List.get?_set_ne _ _ hij

/-- C8: error isolation.  If `extract()` throws (first conjunct) or
`transform(...)` throws (second conjunct), the resuming step leaves the
published dataset unchanged, clears `isProcessing` (state back to Idle),
marks the invocation `errored` — the propagated outcome — and appends no
load event, so Load is not reached in that step; the third conjunct shows
an `errored` invocation never moves again (Load is never reached later
either); the fourth shows a start from Idle is not locked out: it begins
a fresh run. -/
theorem C8_error_isolation (ex : Except JsError (List RawRecord)) :
    (∀ (c : Config) (i : ℕ) (e : JsError),
      c.runs.get? i = some RunPC.awaitingExtract → ex = .error e →
        getData (resumeRun ex c i) = getData c ∧
        isETLProcessing (resumeRun ex c i) = false ∧
        (resumeRun ex c i).runs.get? i = some (RunPC.errored e) ∧
        (resumeRun ex c i).events = c.events ++ [Event.extractCall]) ∧
    (∀ (c : Config) (i : ℕ) (raw : List RawRecord) (e : JsError),
      c.runs.get? i = some (RunPC.awaitingTransform raw) → transform raw = .error e →
        getData (resumeRun ex c i) = getData c ∧
        isETLProcessing (resumeRun ex c i) = false ∧
        (resumeRun ex c i).runs.get? i = some (RunPC.errored e) ∧
        (resumeRun ex c i).events = c.events ++ [Event.transformCall]) ∧
    (∀ (c c' : Config) (i : ℕ) (e : JsError),
      c.runs.get? i = some (RunPC.errored e) → Step ex c c' →
        c'.runs.get? i = some (RunPC.errored e)) ∧
    (∀ c : Config, isETLProcessing c = false →
      (startRun c).runs.get? c.runs.length = some RunPC.awaitingExtract) := by
  refine ⟨?_, ?_, ?_, ?_⟩
  · intro c i e hget hex
    subst hex
    have hlt : i < c.runs.length := by
      by_contra hge
      push_neg at hge
      rw [List.get?_eq_none.mpr hge] at hget
      cases hget
    have hres : resumeRun (.error e) c i =
        { c with
          isProcessing := false
          runs := c.runs.set i (.errored e)
          events := c.events ++ [Event.extractCall] } := by
      unfold resumeRun
      rw [hget]
    rw [hres]
    exact ⟨rfl, rfl, List.get?_set_eq_of_lt _ hlt, rfl⟩
  · intro c i raw e hget ht
    have hlt : i < c.runs.length := by
      by_contra hge
      push_neg at hge
      rw [List.get?_eq_none.mpr hge] at hget
      cases hget
    have hres : resumeRun ex c i =
        { c with
          isProcessing := false
          runs := c.runs.set i (.errored e)
          events := c.events ++ [Event.transformCall] } := by
      unfold resumeRun
      rw [hget]
      simp only [ht]
    rw [hres]
    exact ⟨rfl, rfl, List.get?_set_eq_of_lt _ hlt, rfl⟩
  · intro c c' i e hget hstep
    have hlt : i < c.runs.length := by
      by_contra hge
      push_neg at hge
      rw [List.get?_eq_none.mpr hge] at hget
      cases hget
    cases hstep with
    | start =>
      unfold startRun
      by_cases hp : c.isProcessing = true
      · rw [if_pos hp]
        show (c.runs ++ [RunPC.earlyReturned c.processedData]).get? i = _
        rw [List.get?_append hlt]
        exact hget
      · rw [if_neg hp]
        show (c.runs ++ [RunPC.awaitingExtract]).get? i = _
        rw [List.get?_append hlt]
        exact hget
    | resume j =>
      by_cases hij : j = i
      · subst hij
        unfold resumeRun
        rw [hget]
        exact hget
      · rw [resumeRun_get_ne ex c hij]
        exact hget
  · intro c hp
    have hp2 : c.isProcessing = false := hp
    unfold startRun
    rw [if_neg (by simp [hp2])]
    show (c.runs ++ [RunPC.awaitingExtract]).get? c.runs.length = _
    exact List.get?_concat_length _ _

/-- Extract failing, as a machine parameter (the spec's
`SourceUnavailable` path; `JsError` is the model's only exception
value). -/
def exErr : Except JsError (List RawRecord) := .error .typeError

/-- A configuration suspended before Transform on a batch that makes
`transform` throw. -/
def cfgT : Config :=
  { processedData := [], isProcessing := true,
    runs := [RunPC.awaitingTransform [badRec]], events := [] }

/-- An idle configuration holding one errored invocation. -/
def cfgE : Config :=
  { processedData := [], isProcessing := false,
    runs := [RunPC.errored JsError.typeError], events := [] }

/-- Witness for C8: an extract failure, a transform failure, the
persistence of `errored`, and a successful restart from Idle. -/
theorem C8_witness :
    (getData (resumeRun exErr busyCfg 0) = getData busyCfg ∧
      isETLProcessing (resumeRun exErr busyCfg 0) = false ∧
      (resumeRun exErr busyCfg 0).runs.get? 0 = some (RunPC.errored JsError.typeError) ∧
      (resumeRun exErr busyCfg 0).events = busyCfg.events ++ [Event.extractCall]) ∧
    (getData (resumeRun exErr cfgT 0) = getData cfgT ∧
      isETLProcessing (resumeRun exErr cfgT 0) = false ∧
      (resumeRun exErr cfgT 0).runs.get? 0 = some (RunPC.errored JsError.typeError) ∧
      (resumeRun exErr cfgT 0).events = cfgT.events ++ [Event.transformCall]) ∧
    (startRun cfgE).runs.get? 0 = some (RunPC.errored JsError.typeError) ∧
    (startRun cfgE).runs.get? cfgE.runs.length = some RunPC.awaitingExtract :=
  ⟨(C8_error_isolation exErr).1 busyCfg 0 JsError.typeError rfl rfl,
    (C8_error_isolation exErr).2.1 cfgT 0 [badRec] JsError.typeError rfl
      (by with_unfolding_all decide),
    (C8_error_isolation exErr).2.2.1 cfgE (startRun cfgE) 0 JsError.typeError rfl
      (Step.start cfgE),
    (C8_error_isolation exErr).2.2.2 cfgE rfl⟩

/-- A raw record whose gas consumption is the numeric string `"-5"`; it
passes the validity filter (only electricity is sign-checked). -/
def negRec : RawRecord :=
  { nom_batiment := .str "N", conso_elec_kwh := .num 10, conso_gaz_kwh := .str "-5",
    lat := .num 1, lng := .num 1 }

def negOut : List CanonRecord := (transform [negRec]).toOption.getD []

/-- C9 counterexample: the published output can contain a record with
`gas_kwh = -5 < 0` — `toNumber` rounds but never clamps the sign, so the
claimed invariant `gas_kwh ≥ 0` fails. -/
theorem C9_cex :
    transform [negRec] = .ok negOut ∧ ∃ rec ∈ negOut, rec.gaz_kwh < 0 := by
  constructor
  · with_unfolding_all decide
  · with_unfolding_all decide

/-- C9 amended: the integer fields are non-negative for every batch whose
raw values in those fields are missing, non-numeric, or parse to
non-negative numbers (a raw value parsing to a number `< -1/2` yields a
negative integer instead); `electricity_kwh > 0` always holds by the
filter. -/
theorem C9_amended {raw : List RawRecord} {out : List CanonRecord}
    (hok : transform raw = .ok out)
    (h : ∀ r ∈ raw, numNonneg r.conso_gaz_kwh = true ∧ numNonneg r.conso_eau_m3 = true ∧
      numNonneg r.surface_m2 = true ∧ numNonneg r.annee = true ∧
      numNonneg r.nb_occupants = true) :
    ∀ rec ∈ out, 0 ≤ rec.gaz_kwh ∧ 0 ≤ rec.eau_m3 ∧ 0 ≤ rec.surface_m2 ∧
      0 ≤ rec.annee ∧ 0 ≤ rec.occupants ∧ 0 < rec.electricite_kwh := by
  intro rec hrec
  obtain ⟨mapped, hmap, hout⟩ := transform_ok_elim hok
  subst hout
  obtain ⟨b, hbf, hbeq⟩ := List.mem_map.mp (mem_sortByEnergy.mp hrec)
  obtain ⟨hbm, hbv⟩ := List.mem_filter.mp hbf
  obtain ⟨r, hr, hmr⟩ := mapRecords_backward hmap b hbm
  obtain ⟨hg, he, hs, ha, ho⟩ := h r hr
  have hfields : b.gaz_kwh = toNumber r.conso_gaz_kwh ∧
      b.eau_m3 = toNumber r.conso_eau_m3 ∧ b.surface_m2 = toNumber r.surface_m2 ∧
      b.annee = toNumber r.annee ∧ b.occupants = jsOrZero (toNumber r.nb_occupants) := by
    unfold mapRecord at hmr
    cases hnt : normalizeType r.type_infra with
    | error e => rw [hnt] at hmr; cases hmr
    | ok ty =>
      rw [hnt] at hmr
      injection hmr with hmr
      rw [← hmr]
      exact ⟨rfl, rfl, rfl, rfl, rfl⟩
  subst hbeq
  obtain ⟨hf1, hf2, hf3, hf4, hf5⟩ := hfields
  refine ⟨?_, ?_, ?_, ?_, ?_, ?_⟩
  · show 0 ≤ b.gaz_kwh
    rw [hf1]
    exact toNumber_nonneg hg
  · show 0 ≤ b.eau_m3
    rw [hf2]
    exact toNumber_nonneg he
  · show 0 ≤ b.surface_m2
    rw [hf3]
    exact toNumber_nonneg hs
  · show 0 ≤ b.annee
    rw [hf4]
    exact toNumber_nonneg ha
  · show 0 ≤ b.occupants
    rw [hf5]
    exact jsOrZero_nonneg (toNumber_nonneg ho)
  · show 0 < b.electricite_kwh
    exact ((validFilter_iff b).mp hbv).2.2.2

/-- Witness for C9 (amended) at the single output record of `wraw1`. -/
theorem C9_witness :
    0 ≤ wcan1.gaz_kwh ∧ 0 ≤ wcan1.eau_m3 ∧ 0 ≤ wcan1.surface_m2 ∧ 0 ≤ wcan1.annee ∧
      0 ≤ wcan1.occupants ∧ 0 < wcan1.electricite_kwh :=
  C9_amended (show transform wraw1 = .ok wout1 by with_unfolding_all decide)
    (by with_unfolding_all decide) wcan1 (show wcan1 ∈ wout1 by with_unfolding_all decide)

/-- C10: the mapped `latitude`/`longitude` are `toFloat` of the raw
`lat`/`lng`; `toFloat` yields `0` on `null`, `undefined`, the empty
string and every non-numeric value (`parseFloat` gives `NaN`), and
otherwise the parsed floating-point value with no rounding. -/
theorem C10_toFloat :
    toFloat JSVal.null = 0 ∧ toFloat JSVal.undef = 0 ∧ toFloat (JSVal.str "") = 0 ∧
    (∀ v : JSVal, jsParseFloatOf v = none → toFloat v = 0) ∧
    (∀ (v : JSVal) (q : ℚ), jsParseFloatOf v = some q → toFloat v = q) ∧
    (∀ (r : RawRecord) (m : BaseRecord), mapRecord r = .ok m →
      m.latitude = toFloat r.lat ∧ m.longitude = toFloat r.lng) := by
  refine ⟨rfl, rfl, rfl, ?_, ?_, ?_⟩
  · intro v hv
    unfold toFloat
    split
    · rfl
    · rw [hv]
  · intro v q hv
    unfold toFloat
    split
    · rename_i hguard
      rcases hguard with h1 | h1 | h1
      · subst h1
        rw [show jsParseFloatOf JSVal.null = none from rfl] at hv
        cases hv
      · subst h1
        rw [show jsParseFloatOf JSVal.undef = none from rfl] at hv
        cases hv
      · subst h1
        rw [show jsParseFloatOf (JSVal.str "") = none from rfl] at hv
        cases hv
    · rw [hv]
  · intro r m hm
    unfold mapRecord at hm
    cases hnt : normalizeType r.type_infra with
    | error e => rw [hnt] at hm; cases hm
    | ok ty =>
      rw [hnt] at hm
      injection hm with hm
      rw [← hm]
      exact ⟨rfl, rfl⟩

/-- Witness for C10: a non-numeric string, a numeral with trailing
garbage (parsed by longest prefix, no rounding), and the coordinate
mapping of `wrec1`. -/
theorem C10_witness :
    toFloat (JSVal.str "abc") = 0 ∧ toFloat (JSVal.str "3.25xyz") = 13 / 4 ∧
    (wbase1.latitude = toFloat wrec1.lat ∧ wbase1.longitude = toFloat wrec1.lng) :=
  ⟨C10_toFloat.2.2.2.1 (JSVal.str "abc") (by with_unfolding_all decide),
    C10_toFloat.2.2.2.2.1 (JSVal.str "3.25xyz") (13 / 4) (by with_unfolding_all decide),
    C10_toFloat.2.2.2.2.2 wrec1 wbase1 (by with_unfolding_all decide)⟩
